import Mathlib

/-!
Verification of the encryption/persistence core of the `pass-manager`
repository (`src/main.rs`).

Modelling conventions:
* Bytes are `Nat` (values < 256 in every reachable state); byte buffers
  (`Vec<u8>`, `&[u8]`) are `List Nat`.
* Rust `String`s are represented by their UTF-8 byte sequences
  (`List Nat`).  All JSON escaping decisions of `serde_json` are
  per-byte decisions on ASCII bytes, so the byte-level encoder below
  produces exactly the bytes `serde_json::to_vec` produces.
* `HashMap<String, String>` is represented by its association list in
  iteration order, with the invariant that keys are unique
  (`HashMap` cannot hold duplicate keys).
* The external cryptographic primitives from the `ring` crate
  (SHA-256 and AES-256-GCM) are not part of this repository; they are
  modelled by deterministic executable stand-ins that preserve the
  exact interface contract the program relies on: the hash is a pure
  function of the input producing 32 bytes; sealing is a
  length-preserving keyed stream transformation with a 16-byte
  authentication tag appended; opening recomputes the tag and fails
  (returns `none`) unless it matches.
-/

/-- A deterministic 32-bit mixing step, the building block of the
executable stand-ins for the external cryptographic primitives
(`ring`'s SHA-256 and AES-256-GCM).  Arithmetic is mod 2^32. -/
def mix (a b : Nat) : Nat := (a * 131 + b + 1) % 4294967296

/-- Keyed pseudorandom fold over a byte list with a seed. -/
def prf (l : List Nat) (seed : Nat) : Nat := l.foldl mix seed

/-- Model of the external `ring::digest::digest(&SHA256, _)`: a pure,
deterministic function from the input bytes to 32 output bytes. -/
def sha256Bytes (msg : List Nat) : List Nat :=
  (List.range 32).map (fun i => prf msg (1000 + i) % 256)

/-- `generate_key_from_password` (src/main.rs lines 17-24): hash the
password bytes with SHA-256 and use the 32-byte digest as the key. -/
def generate_key_from_password (password : List Nat) : List Nat :=
  sha256Bytes password

/-- Model of the AES-256-GCM keystream (external `ring` primitive):
`n` deterministic bytes depending on key and nonce. -/
def gcmKeystream (key nonce : List Nat) (n : Nat) : List Nat :=
  (List.range n).map (fun i => prf (key ++ nonce ++ [i]) 9973 % 256)

/-- Pointwise XOR of two byte lists (the stream-cipher layer of GCM). -/
def xorBytes (a b : List Nat) : List Nat := List.zipWith (fun x y => x ^^^ y) a b

/-- Ciphertext part of the AEAD seal: plaintext XOR keystream
(length-preserving, as in AES-GCM's CTR layer). -/
def gcmCiphertext (key nonce data : List Nat) : List Nat :=
  xorBytes data (gcmKeystream key nonce data.length)

/-- Model of the 16-byte GCM authentication tag: a deterministic
function of key, nonce and ciphertext (external `ring` primitive). -/
def gcmTag (key nonce ct : List Nat) : List Nat :=
  (List.range 16).map (fun i => prf (key ++ nonce ++ ct ++ [i, ct.length]) 7919 % 256)

/-- Model of `ring`'s `seal_in_place_append_tag`: ciphertext followed by
the 16-byte tag. -/
def gcmSeal (key nonce data : List Nat) : List Nat :=
  gcmCiphertext key nonce data ++ gcmTag key nonce (gcmCiphertext key nonce data)

/-- Model of `ring`'s `open_in_place`: inputs shorter than the tag are
rejected; otherwise split off the trailing 16-byte tag, recompute it
over the ciphertext, and fail unless it matches. -/
def gcmOpen (key nonce dat : List Nat) : Option (List Nat) :=
  if dat.length < 16 then none
  else
    let ct := dat.take (dat.length - 16)
    let tag := dat.drop (dat.length - 16)
    if gcmTag key nonce ct = tag then
      some (xorBytes ct (gcmKeystream key nonce ct.length))
    else none

/-- Result of a Rust function that can `unwrap`-panic: either the
returned value, or a panic that aborts the process. -/
inductive PanicOr (α : Type) where
  | panicked : PanicOr α
  | ok : α → PanicOr α
deriving DecidableEq

/-- `encrypt_data` (src/main.rs lines 26-35).
`UnboundKey::new(&AES_256_GCM, key_bytes).unwrap()` panics unless the
key is exactly 32 bytes.  The code then extends the plaintext buffer
with 16 zero bytes (`in_out.extend_from_slice(&[0u8; tag_len()])`, a
leftover of ring's old reserve-tag-space API) before calling
`seal_in_place_append_tag`, which in the API actually in use encrypts
the **entire** buffer and appends the tag — so what is sealed is
`data ‖ 0^16`, under the fixed all-zero 12-byte (96-bit) nonce. -/
def encrypt_data (key_bytes data : List Nat) : PanicOr (List Nat) :=
  if key_bytes.length = 32 then
    .ok (gcmSeal key_bytes (List.replicate 12 0) (data ++ List.replicate 16 0))
  else .panicked

/-- `decrypt_data` (src/main.rs lines 37-47).
`UnboundKey::new(..).unwrap()` panics unless the key is exactly 32
bytes; otherwise the data is opened under the same fixed all-zero
nonce, `none` meaning an authentication failure (`Err` → `None`). -/
def decrypt_data (key_bytes dat : List Nat) : PanicOr (Option (List Nat)) :=
  if key_bytes.length = 32 then
    .ok (gcmOpen key_bytes (List.replicate 12 0) dat)
  else .panicked

/-- `PasswordStore` (src/main.rs lines 12-15): the credential mapping.
`HashMap<String, String>` is modelled as its association list in
iteration order; strings are their UTF-8 byte sequences. -/
structure PasswordStore where
  passwords : List (List Nat × List Nat)
deriving DecidableEq

/-- `HashMap::insert`: overwrite the value at an existing key in place,
or append a new binding. -/
def insertPw (k v : List Nat) : List (List Nat × List Nat) → List (List Nat × List Nat)
  | [] => [(k, v)]
  | (k1, v1) :: t => if k1 = k then (k, v) :: t else (k1, v1) :: insertPw k v t

/-- `HashMap::get`: the value bound to `k`, if any. -/
def lookupPw (k : List Nat) : List (List Nat × List Nat) → Option (List Nat)
  | [] => none
  | (k1, v1) :: t => if k1 = k then some v1 else lookupPw k t

/-- The lowercase hex digit for a value below 16, as an ASCII byte
(`serde_json`'s `0123456789abcdef` table). -/
def hexDigit (n : Nat) : Nat := if n < 10 then 48 + n else 87 + n

/-- `serde_json`'s escaping of one string byte: 0x22 and 0x5C get a
backslash escape, control bytes 0x08/0x09/0x0A/0x0C/0x0D get their
short escapes, all other control bytes below 0x20 become `\u00XX`,
and every other byte is emitted verbatim. -/
def escByte (b : Nat) : List Nat :=
  if b = 34 then [92, 34]
  else if b = 92 then [92, 92]
  else if b = 8 then [92, 98]
  else if b = 9 then [92, 116]
  else if b = 10 then [92, 110]
  else if b = 12 then [92, 102]
  else if b = 13 then [92, 114]
  else if b < 32 then [92, 117, 48, 48, hexDigit (b / 16), hexDigit (b % 16)]
  else [b]

/-- Escape every byte of a string body. -/
def escapeBytes (s : List Nat) : List Nat := s.flatMap escByte

/-- A JSON string literal: quote, escaped body, quote. -/
def encodeString (s : List Nat) : List Nat := 34 :: (escapeBytes s ++ [34])

/-- The comma-separated `"key":"value"` members of a JSON object, in
iteration order (compact form, no whitespace). -/
def encodeItems : List (List Nat × List Nat) → List Nat
  | [] => []
  | [(k, v)] => encodeString k ++ 58 :: encodeString v
  | (k, v) :: rest => encodeString k ++ 58 :: encodeString v ++ 44 :: encodeItems rest

/-- A JSON object from an association list (compact form). -/
def encodeObj (l : List (List Nat × List Nat)) : List Nat :=
  123 :: (encodeItems l ++ [125])

/-- The UTF-8 bytes of the struct field name `passwords`. -/
def pwLabel : List Nat := [112, 97, 115, 115, 119, 111, 114, 100, 115]

/-- Model of `serde_json::to_vec(&store)` (used at src/main.rs line 66):
the compact JSON bytes of the one-field struct
`PasswordStore.passwords`. -/
def encodeStore (st : PasswordStore) : List Nat :=
  123 :: (encodeString pwLabel ++ 58 :: (encodeObj st.passwords ++ [125]))

/-- The value of an ASCII hex digit byte, if it is one. -/
def hexVal (d : Nat) : Option Nat :=
  if 48 ≤ d ∧ d ≤ 57 then some (d - 48)
  else if 97 ≤ d ∧ d ≤ 102 then some (d - 87)
  else if 65 ≤ d ∧ d ≤ 70 then some (d - 55)
  else none

/-- The byte denoted by a single-character JSON escape. -/
def unescapeChar (e : Nat) : Option Nat :=
  if e = 34 then some 34
  else if e = 92 then some 92
  else if e = 47 then some 47
  else if e = 98 then some 8
  else if e = 116 then some 9
  else if e = 110 then some 10
  else if e = 102 then some 12
  else if e = 114 then some 13
  else none

/-- Handle one JSON escape sequence, given the input after the
backslash: the byte it denotes and the remaining input.  Only the
escapes `serde_json` ever emits are accepted; of the `\u` forms, the
`\u00XX` form (the only one the encoder produces) is decoded to the
byte it denotes. -/
def escStep (rest : List Nat) : Option (Nat × List Nat) :=
  match rest with
  | [] => none
  | e :: r2 =>
    if e = 117 then
      match r2 with
      | h1 :: h2 :: h3 :: h4 :: r3 =>
        if h1 = 48 ∧ h2 = 48 then
          match hexVal h3, hexVal h4 with
          | some x, some y => some (16 * x + y, r3)
          | _, _ => none
        else none
      | _ => none
    else
      match unescapeChar e with
      | some c => some (c, r2)
      | none => none

theorem escStep_suffix : ∀ rest c r2, escStep rest = some (c, r2) → r2.length < rest.length := by
  intro rest c r2 h
  unfold escStep at h
  split at h
  · exact Option.noConfusion h
  · split at h
    · split at h
      · split at h
        · split at h
          · cases h; simp; omega
          · exact Option.noConfusion h
        · exact Option.noConfusion h
      · exact Option.noConfusion h
    · split at h
      · cases h; simp
      · exact Option.noConfusion h

/-- Parse the body of a JSON string after the opening quote, up to and
including the closing quote; returns the unescaped bytes and the rest
of the input.  Unescaped control bytes are rejected, as `serde_json`
rejects them. -/
def parseStrBody (l : List Nat) : Option (List Nat × List Nat) :=
  match l with
  | [] => none
  | b :: rest =>
    if b = 34 then some ([], rest)
    else if b = 92 then
      match h : escStep rest with
      | some (c, r2) =>
        match parseStrBody r2 with
        | some (s, r) => some (c :: s, r)
        | none => none
      | none => none
    else if 32 ≤ b then
      match parseStrBody rest with
      | some (s, r) => some (b :: s, r)
      | none => none
    else none
termination_by l.length
decreasing_by
  all_goals simp_arith
  have := escStep_suffix _ _ _ h
  omega

/-- Parse a JSON string literal (opening quote included). -/
def parseString (l : List Nat) : Option (List Nat × List Nat) :=
  match l with
  | [] => none
  | b :: rest => if b = 34 then parseStrBody rest else none

theorem parseStrBody_suffix_aux :
    ∀ (n : Nat) (l : List Nat), l.length ≤ n →
      ∀ s r, parseStrBody l = some (s, r) → r.length < l.length := by
  intro n
  induction n with
  | zero =>
    intro l hl s r h
    cases l with
    | nil => simp [parseStrBody] at h
    | cons b rest => simp at hl
  | succ n ih =>
    intro l hl s r h
    cases l with
    | nil => simp [parseStrBody] at h
    | cons b rest =>
      rw [parseStrBody.eq_def] at h
      dsimp only [] at h
      split at h
      · cases h; simp
      · split at h
        · split at h
          · rename_i c r2 heq
            split at h
            · rename_i s1 r1 hrec
              cases h
              have h1 := escStep_suffix _ _ _ heq
              have h2 := ih r2 (by simp only [List.length_cons] at hl; omega) _ _ hrec
              simp only [List.length_cons]
              omega
            · exact Option.noConfusion h
          · exact Option.noConfusion h
        · split at h
          · split at h
            · rename_i s1 r1 hrec
              cases h
              have h2 := ih rest (by simp only [List.length_cons] at hl; omega) _ _ hrec
              simp only [List.length_cons]
              omega
            · exact Option.noConfusion h
          · exact Option.noConfusion h

theorem parseStrBody_suffix {l s r : List Nat} (h : parseStrBody l = some (s, r)) :
    r.length < l.length :=
  parseStrBody_suffix_aux l.length l (le_refl _) s r h

theorem parseString_suffix {l s r : List Nat} (h : parseString l = some (s, r)) :
    r.length < l.length := by
  cases l with
  | nil => simp [parseString] at h
  | cons b rest =>
    rw [parseString.eq_def] at h
    dsimp only [] at h
    split at h
    · have := parseStrBody_suffix h
      simp only [List.length_cons]
      omega
    · exact Option.noConfusion h

/-- Parse the non-empty member list of a JSON object:
`"key":"value"` pairs separated by commas, terminated by the closing
brace; returns the pairs and the input after the brace. -/
def parsePairs (l : List Nat) : Option (List (List Nat × List Nat) × List Nat) :=
  match h1 : parseString l with
  | none => none
  | some (k, r1) =>
    match r1 with
    | [] => none
    | c1 :: r2 =>
      if c1 = 58 then
        match h2 : parseString r2 with
        | none => none
        | some (v, r3) =>
          match r3 with
          | [] => none
          | c2 :: r4 =>
            if c2 = 44 then
              match parsePairs r4 with
              | some (ps, r5) => some ((k, v) :: ps, r5)
              | none => none
            else if c2 = 125 then some ([(k, v)], r4)
            else none
      else none
termination_by l.length
decreasing_by
  have hs1 := parseString_suffix h1
  have hs2 := parseString_suffix h2
  simp only [List.length_cons] at hs1 hs2
  omega

/-- Parse a JSON object into its member list (empty or non-empty). -/
def parseObj (l : List Nat) : Option (List (List Nat × List Nat) × List Nat) :=
  match l with
  | [] => none
  | b :: rest =>
    if b = 123 then
      match rest with
      | [] => none
      | c :: r2 => if c = 125 then some ([], r2) else parsePairs rest
    else none

/-- Deserializing a JSON object into a `HashMap` inserts the members in
order, so a duplicated key keeps the last value. -/
def buildMap (l : List (List Nat × List Nat)) : List (List Nat × List Nat) :=
  l.foldl (fun acc p => insertPw p.1 p.2 acc) []

/-- Model of `serde_json::from_slice::(..)` for `PasswordStore` (used at
src/main.rs line 55): the compact grammar the serializer emits —
`\x7b"passwords":\x7b...\x7d\x7d` with nothing trailing; any other
input is a decode failure (`none`). -/
def decodeStore (l : List Nat) : Option PasswordStore :=
  match l with
  | [] => none
  | b :: rest =>
    if b = 123 then
      match parseString rest with
      | some (name, r1) =>
        if name = pwLabel then
          match r1 with
          | [] => none
          | c1 :: r2 =>
            if c1 = 58 then
              match parseObj r2 with
              | some (ps, r3) => if r3 = [125] then some ⟨buildMap ps⟩ else none
              | none => none
            else none
        else none
      | none => none
    else none

/-- The cause of a failed `File::open` (`std::io::ErrorKind`): the file
may be absent, or exist but be unopenable (e.g. permission denied).
The program discards this cause — `if let Ok(file) = File::open(..)`
only sees success or failure — but the model keeps it so that claims
that distinguish the causes can be stated. -/
inductive FileOpenErr where
  | notFound : FileOpenErr
  | permissionDenied : FileOpenErr
  | otherErr : FileOpenErr
deriving DecidableEq

/-- Outcome of `read_to_end` on a successfully opened file: the bytes,
or an I/O error (which the program `unwrap`s into a panic). -/
inductive ReadOutcome where
  | bytes : List Nat → ReadOutcome
  | readErr : ReadOutcome
deriving DecidableEq

/-- Outcome of `File::open(STORAGE_FILE)` together with what reading
the handle would yield — the whole file-system input of one load. -/
inductive FileInput where
  | opened : ReadOutcome → FileInput
  | openFailed : FileOpenErr → FileInput
deriving DecidableEq

/-- Observable result of `load_passwords`: a returned store, a printed
diagnostic plus `process::exit(code)`, or a panic from `unwrap`. -/
inductive LoadResult where
  | loaded : PasswordStore → LoadResult
  | fatal : String → Nat → LoadResult
  | panicked : LoadResult
deriving DecidableEq

/-- The diagnostic printed before `process::exit(1)`
(src/main.rs line 57). -/
def wrongPasswordMsg : String := "Failed to decrypt data. Possibly wrong password."

/-- `load_passwords` (src/main.rs lines 49-63).  `if let Ok(mut file) =
File::open(STORAGE_FILE)` takes the else-branch (empty store) on any
open failure; a read failure panics via `unwrap`; a decryption failure
prints and exits with code 1; a decode failure falls back to the empty
store via `unwrap_or`. -/
def load_passwords (file : FileInput) (master_password : List Nat) : LoadResult :=
  match file with
  | .opened r =>
    match r with
    | .readErr => .panicked
    | .bytes encrypted_data =>
      let key_bytes := generate_key_from_password master_password
      match decrypt_data key_bytes encrypted_data with
      | .panicked => .panicked
      | .ok (some decrypted) => .loaded ((decodeStore decrypted).getD ⟨[]⟩)
      | .ok none => .fatal wrongPasswordMsg 1
  | .openFailed _ => .loaded ⟨[]⟩

/-- `save_passwords` (src/main.rs lines 65-71): the byte blob written
to `STORAGE_FILE` — serialize, derive the key, encrypt (a panic inside
`encrypt_data` would abort the save). -/
def save_passwords (store : PasswordStore) (master_password : List Nat) : PanicOr (List Nat) :=
  encrypt_data (generate_key_from_password master_password) (encodeStore store)

theorem gcmKeystream_length (key nonce : List Nat) (n : Nat) :
    (gcmKeystream key nonce n).length = n := by
  simp [gcmKeystream]

theorem gcmTag_length (key nonce ct : List Nat) :
    (gcmTag key nonce ct).length = 16 := by
  simp [gcmTag]

theorem xorBytes_length (a b : List Nat) :
    (xorBytes a b).length = min a.length b.length := by
  simp [xorBytes]

theorem gcmCiphertext_length (key nonce data : List Nat) :
    (gcmCiphertext key nonce data).length = data.length := by
  simp [gcmCiphertext, xorBytes_length, gcmKeystream_length]

theorem gcmSeal_length (key nonce data : List Nat) :
    (gcmSeal key nonce data).length = data.length + 16 := by
  simp [gcmSeal, gcmCiphertext_length, gcmTag_length]

/-- The derived key is always exactly 32 bytes, so the `unwrap` in
`UnboundKey::new` never fires on keys produced by
`generate_key_from_password`. -/
theorem generate_key_length (p : List Nat) :
    (generate_key_from_password p).length = 32 := by
  simp [generate_key_from_password, sha256Bytes]

theorem encrypt_data_eq (key data : List Nat) (hk : key.length = 32) :
    encrypt_data key data
      = .ok (gcmSeal key (List.replicate 12 0) (data ++ List.replicate 16 0)) := by
  rw [encrypt_data, if_pos hk]

theorem decrypt_data_eq (key dat : List Nat) (hk : key.length = 32) :
    decrypt_data key dat = .ok (gcmOpen key (List.replicate 12 0) dat) := by
  rw [decrypt_data, if_pos hk]

theorem xorBytes_cancel (a : List Nat) :
    ∀ b : List Nat, a.length ≤ b.length → xorBytes (xorBytes a b) b = a := by
  induction a with
  | nil => intro b _; simp [xorBytes]
  | cons x xs ih =>
    intro b hb
    cases b with
    | nil => simp at hb
    | cons y ys =>
      simp only [xorBytes, List.zipWith, List.length_cons] at *
      rw [Nat.xor_assoc, Nat.xor_self, Nat.xor_zero, ih ys (by omega)]

/-- Opening a sealed blob under the same key and nonce recovers the
plaintext exactly. -/
theorem gcmOpen_gcmSeal (key nonce data : List Nat) :
    gcmOpen key nonce (gcmSeal key nonce data) = some data := by
  have hct := gcmCiphertext_length key nonce data
  have hlen := gcmSeal_length key nonce data
  unfold gcmOpen
  rw [hlen]
  simp only [Nat.add_sub_cancel, if_neg (by omega : ¬ data.length + 16 < 16)]
  unfold gcmSeal
  rw [← hct, List.take_left, List.drop_left, if_pos rfl, hct]
  unfold gcmCiphertext
  rw [xorBytes_cancel data (gcmKeystream key nonce data.length)
    (by rw [gcmKeystream_length])]


theorem psb_quote (rest : List Nat) : parseStrBody (34 :: rest) = some ([], rest) := by
  rw [parseStrBody.eq_def]
  dsimp only []
  rw [if_pos rfl]

theorem psb_backslash (rest : List Nat) (c : Nat) (r2 : List Nat)
    (h : escStep rest = some (c, r2)) :
    parseStrBody (92 :: rest) = (parseStrBody r2).map (fun p => (c :: p.1, p.2)) := by
  rw [parseStrBody.eq_def]
  dsimp only []
  rw [if_neg (by decide), if_pos rfl]
  split
  · rename_i c1 r21 heq
    rw [h] at heq
    cases heq
    cases hpt : parseStrBody r2 with
    | none => simp [hpt]
    | some p => cases p; simp [hpt]
  · rename_i heq
    rw [h] at heq
    exact Option.noConfusion heq

theorem psb_raw (b : Nat) (rest : List Nat) (h34 : b ≠ 34) (h92 : b ≠ 92) (h32 : 32 ≤ b) :
    parseStrBody (b :: rest) = (parseStrBody rest).map (fun p => (b :: p.1, p.2)) := by
  rw [parseStrBody.eq_def]
  dsimp only []
  rw [if_neg h34, if_neg h92, if_pos h32]
  cases hpt : parseStrBody rest with
  | none => simp [hpt]
  | some p => cases p; simp [hpt]

theorem escStep_u (h3 h4 x y : Nat) (tail : List Nat)
    (hx : hexVal h3 = some x) (hy : hexVal h4 = some y) :
    escStep (117 :: 48 :: 48 :: h3 :: h4 :: tail) = some (16 * x + y, tail) := by
  unfold escStep
  simp [hx, hy]

theorem hexVal_hexDigit (m : Nat) (hm : m < 16) : hexVal (hexDigit m) = some m := by
  interval_cases m <;> decide

theorem parseStrBody_escByte (b : Nat) (tail : List Nat) :
    parseStrBody (escByte b ++ tail) = (parseStrBody tail).map (fun p => (b :: p.1, p.2)) := by
  by_cases h34 : b = 34
  · subst h34
    rw [show escByte 34 ++ tail = 92 :: 34 :: tail from by simp [escByte]]
    exact psb_backslash _ _ _ (by simp [escStep, unescapeChar])
  by_cases h92 : b = 92
  · subst h92
    rw [show escByte 92 ++ tail = 92 :: 92 :: tail from by simp [escByte]]
    exact psb_backslash _ _ _ (by simp [escStep, unescapeChar])
  by_cases h8 : b = 8
  · subst h8
    rw [show escByte 8 ++ tail = 92 :: 98 :: tail from by simp [escByte]]
    exact psb_backslash _ _ _ (by simp [escStep, unescapeChar])
  by_cases h9 : b = 9
  · subst h9
    rw [show escByte 9 ++ tail = 92 :: 116 :: tail from by simp [escByte]]
    exact psb_backslash _ _ _ (by simp [escStep, unescapeChar])
  by_cases h10 : b = 10
  · subst h10
    rw [show escByte 10 ++ tail = 92 :: 110 :: tail from by simp [escByte]]
    exact psb_backslash _ _ _ (by simp [escStep, unescapeChar])
  by_cases h12 : b = 12
  · subst h12
    rw [show escByte 12 ++ tail = 92 :: 102 :: tail from by simp [escByte]]
    exact psb_backslash _ _ _ (by simp [escStep, unescapeChar])
  by_cases h13 : b = 13
  · subst h13
    rw [show escByte 13 ++ tail = 92 :: 114 :: tail from by simp [escByte]]
    exact psb_backslash _ _ _ (by simp [escStep, unescapeChar])
  by_cases hlt : b < 32
  · have hesc : escStep (117 :: 48 :: 48 :: hexDigit (b / 16) :: hexDigit (b % 16) :: tail)
        = some (b, tail) := by
      rw [escStep_u _ _ _ _ _ (hexVal_hexDigit _ (by omega)) (hexVal_hexDigit _ (by omega))]
      rw [Nat.div_add_mod]
    rw [show escByte b ++ tail
          = 92 :: 117 :: 48 :: 48 :: hexDigit (b / 16) :: hexDigit (b % 16) :: tail from by
        simp [escByte, h34, h92, h8, h9, h10, h12, h13, hlt]]
    exact psb_backslash _ _ _ hesc
  · rw [show escByte b ++ tail = b :: tail from by
        simp [escByte, h34, h92, h8, h9, h10, h12, h13, hlt]]
    exact psb_raw _ _ h34 h92 (by omega)

theorem parseStrBody_escape (s : List Nat) :
    ∀ rest, parseStrBody (escapeBytes s ++ 34 :: rest) = some (s, rest) := by
  induction s with
  | nil =>
    intro rest
    simp only [escapeBytes, List.flatMap_nil, List.nil_append]
    exact psb_quote rest
  | cons b s ih =>
    intro rest
    have : escapeBytes (b :: s) ++ 34 :: rest
        = escByte b ++ (escapeBytes s ++ 34 :: rest) := by
      simp [escapeBytes, List.append_assoc]
    rw [this, parseStrBody_escByte, ih rest]
    rfl

theorem parseString_encodeString (s rest : List Nat) :
    parseString (encodeString s ++ rest) = some (s, rest) := by
  have : encodeString s ++ rest = 34 :: (escapeBytes s ++ 34 :: rest) := by
    simp [encodeString]
  rw [this, parseString.eq_def]
  dsimp only []
  rw [if_pos rfl]
  exact parseStrBody_escape s rest

theorem parsePairs_encodeItems :
    ∀ (ps : List (List Nat × List Nat)), ps ≠ [] →
      ∀ rest, parsePairs (encodeItems ps ++ 125 :: rest) = some (ps, rest) := by
  intro ps
  induction ps with
  | nil => intro h; exact absurd rfl h
  | cons p t ih =>
    intro _ rest
    obtain ⟨k, v⟩ := p
    cases t with
    | nil =>
      have hsh : encodeItems [(k, v)] ++ 125 :: rest
          = encodeString k ++ (58 :: (encodeString v ++ 125 :: rest)) := by
        simp [encodeItems, List.append_assoc]
      rw [hsh, parsePairs.eq_def]
      split
      · rename_i heq
        rw [parseString_encodeString] at heq
        exact Option.noConfusion heq
      · rename_i k1 r1 heq
        rw [parseString_encodeString] at heq
        cases heq
        dsimp only []
        rw [if_pos rfl]
        split
        · rename_i heq2
          rw [parseString_encodeString] at heq2
          exact Option.noConfusion heq2
        · rename_i v1 r3 heq2
          rw [parseString_encodeString] at heq2
          cases heq2
          dsimp only []
          rw [if_neg (by decide), if_pos rfl]
    | cons q t2 =>
      have hsh : encodeItems ((k, v) :: q :: t2) ++ 125 :: rest
          = encodeString k
            ++ (58 :: (encodeString v ++ (44 :: (encodeItems (q :: t2) ++ 125 :: rest)))) := by
        simp [encodeItems, List.append_assoc]
      rw [hsh, parsePairs.eq_def]
      split
      · rename_i heq
        rw [parseString_encodeString] at heq
        exact Option.noConfusion heq
      · rename_i k1 r1 heq
        rw [parseString_encodeString] at heq
        cases heq
        dsimp only []
        rw [if_pos rfl]
        split
        · rename_i heq2
          rw [parseString_encodeString] at heq2
          exact Option.noConfusion heq2
        · rename_i v1 r3 heq2
          rw [parseString_encodeString] at heq2
          cases heq2
          dsimp only []
          rw [if_pos rfl, ih (by simp) rest]

theorem encodeItems_cons (k v : List Nat) (t : List (List Nat × List Nat)) :
    ∃ X, encodeItems ((k, v) :: t) = 34 :: X := by
  cases t with
  | nil =>
    exact ⟨escapeBytes k ++ 34 :: 58 :: 34 :: (escapeBytes v ++ [34]),
      by simp [encodeItems, encodeString]⟩
  | cons q t2 =>
    exact ⟨escapeBytes k ++ 34 :: 58 :: 34 :: (escapeBytes v ++ 34 :: 44 :: encodeItems (q :: t2)),
      by simp [encodeItems, encodeString]⟩

theorem parseObj_encodeObj (ps : List (List Nat × List Nat)) (rest : List Nat) :
    parseObj (encodeObj ps ++ rest) = some (ps, rest) := by
  cases ps with
  | nil => simp [parseObj, encodeObj, encodeItems]
  | cons p t =>
    obtain ⟨k, v⟩ := p
    obtain ⟨X, hX⟩ := encodeItems_cons k v t
    have hsh : encodeObj ((k, v) :: t) ++ rest
        = 123 :: (encodeItems ((k, v) :: t) ++ 125 :: rest) := by
      simp [encodeObj, List.append_assoc]
    rw [hsh, parseObj.eq_def]
    dsimp only []
    rw [if_pos rfl, hX]
    dsimp only [List.cons_append]
    rw [if_neg (by decide), ← List.cons_append, ← hX]
    exact parsePairs_encodeItems _ (by simp) rest

theorem insertPw_not_mem (k v : List Nat) (acc : List (List Nat × List Nat))
    (h : k ∉ acc.map Prod.fst) : insertPw k v acc = acc ++ [(k, v)] := by
  induction acc with
  | nil => rfl
  | cons p t ih =>
    obtain ⟨k1, v1⟩ := p
    simp only [List.map_cons, List.mem_cons] at h
    push_neg at h
    rw [insertPw, if_neg (Ne.symm h.1), ih h.2]
    rfl

theorem buildMap_aux (l : List (List Nat × List Nat)) :
    ∀ acc, ((acc ++ l).map Prod.fst).Nodup →
      l.foldl (fun acc p => insertPw p.1 p.2 acc) acc = acc ++ l := by
  induction l with
  | nil => intro acc _; simp
  | cons p t ih =>
    intro acc h
    obtain ⟨k, v⟩ := p
    have hmap : (acc ++ (k, v) :: t).map Prod.fst
        = acc.map Prod.fst ++ k :: t.map Prod.fst := by simp
    rw [hmap] at h
    have hknotin : k ∉ acc.map Prod.fst := by
      rcases List.nodup_append.mp h with ⟨_, _, hdisj⟩
      intro hk
      exact hdisj hk (by simp)
    rw [List.foldl_cons]
    have hins : insertPw (k, v).1 (k, v).2 acc = acc ++ [(k, v)] := insertPw_not_mem k v acc hknotin
    rw [hins]
    have h2 : (((acc ++ [(k, v)]) ++ t).map Prod.fst).Nodup := by
      simpa [List.append_assoc] using h
    rw [ih (acc ++ [(k, v)]) h2]
    simp

theorem buildMap_eq_self (l : List (List Nat × List Nat)) (h : (l.map Prod.fst).Nodup) :
    buildMap l = l := by
  have := buildMap_aux l [] (by simpa using h)
  simpa [buildMap] using this

theorem decodeStore_encodeStore (st : PasswordStore) :
    decodeStore (encodeStore st) = some ⟨buildMap st.passwords⟩ := by
  have hsh : encodeStore st
      = 123 :: (encodeString pwLabel ++ (58 :: (encodeObj st.passwords ++ [125]))) := by
    simp [encodeStore]
  rw [hsh, decodeStore.eq_def]
  dsimp only []
  rw [if_pos rfl, parseString_encodeString]
  dsimp only []
  rw [if_pos rfl, if_pos rfl, parseObj_encodeObj]
  dsimp only []
  rw [if_pos rfl]

/-- Serializer round-trip: decoding an encoded store with unique keys
gives back the store exactly. -/
theorem decode_encode (st : PasswordStore) (h : (st.passwords.map Prod.fst).Nodup) :
    decodeStore (encodeStore st) = some st := by
  rw [decodeStore_encodeStore, buildMap_eq_self _ h]

/-- An encoded store followed by any 16 trailing bytes after the final
closing brace is NOT a valid store document: the decoder (like
`serde_json::from_slice`, which rejects trailing non-whitespace, and
NUL is not JSON whitespace) fails on it. -/
theorem decodeStore_padded (st : PasswordStore) :
    decodeStore (encodeStore st ++ List.replicate 16 0) = none := by
  have hsh : encodeStore st ++ List.replicate 16 0
      = 123 :: (encodeString pwLabel
          ++ (58 :: (encodeObj st.passwords ++ (125 :: List.replicate 16 0)))) := by
    simp [encodeStore]
  rw [hsh, decodeStore.eq_def]
  dsimp only []
  rw [if_pos rfl, parseString_encodeString]
  dsimp only []
  rw [if_pos rfl, if_pos rfl, parseObj_encodeObj]
  dsimp only []
  rw [if_neg (by decide)]

/-- What every real load of a really saved store does: the decrypted
plaintext is the JSON bytes with the 16 zero bytes the encryption
accidentally sealed along, decoding fails, and the `unwrap_or` yields
the empty store. -/
theorem load_padded_blob (st : PasswordStore) (p : List Nat) :
    load_passwords
        (.opened (.bytes (gcmSeal (generate_key_from_password p) (List.replicate 12 0)
          (encodeStore st ++ List.replicate 16 0)))) p
      = .loaded (PasswordStore.mk []) := by
  unfold load_passwords
  dsimp only []
  rw [decrypt_data_eq _ _ (generate_key_length p), gcmOpen_gcmSeal]
  dsimp only []
  rw [decodeStore_padded]
  rfl

theorem lookupPw_insertPw (k v : List Nat) (l : List (List Nat × List Nat)) :
    lookupPw k (insertPw k v l) = some v := by
  induction l with
  | nil => simp [insertPw, lookupPw]
  | cons p t ih =>
    obtain ⟨k1, v1⟩ := p
    by_cases h : k1 = k
    · rw [insertPw, if_pos h, lookupPw, if_pos rfl]
    · rw [insertPw, if_neg h, lookupPw, if_neg h, ih]

theorem keys_insertPw_mem (k v : List Nat) (l : List (List Nat × List Nat))
    (h : k ∈ l.map Prod.fst) : (insertPw k v l).map Prod.fst = l.map Prod.fst := by
  induction l with
  | nil => simp at h
  | cons p t ih =>
    obtain ⟨k1, v1⟩ := p
    by_cases hk : k1 = k
    · rw [insertPw, if_pos hk]
      simp [hk]
    · rw [insertPw, if_neg hk]
      simp only [List.map_cons, List.mem_cons] at h ⊢
      rcases h with h | h
      · exact absurd h.symm hk
      · rw [ih h]

theorem keys_insertPw_not_mem (k v : List Nat) (l : List (List Nat × List Nat))
    (h : k ∉ l.map Prod.fst) :
    (insertPw k v l).map Prod.fst = l.map Prod.fst ++ [k] := by
  rw [insertPw_not_mem k v l h]
  simp

theorem nodup_keys_insertPw (k v : List Nat) (l : List (List Nat × List Nat))
    (h : (l.map Prod.fst).Nodup) : ((insertPw k v l).map Prod.fst).Nodup := by
  by_cases hm : k ∈ l.map Prod.fst
  · rw [keys_insertPw_mem k v l hm]; exact h
  · rw [keys_insertPw_not_mem k v l hm]
    simp [List.nodup_append, h, hm]

theorem count_eq_one_nodup {α : Type} [BEq α] [LawfulBEq α] (k : α) :
    ∀ l : List α, l.Nodup → k ∈ l → l.count k = 1 := by
  intro l
  induction l with
  | nil => intro _ hm; simp at hm
  | cons b t ih =>
    intro hnd hm
    rcases List.mem_cons.mp hm with h1 | h2
    · subst h1
      have hnotin : k ∉ t := (List.nodup_cons.mp hnd).1
      simp [List.count_cons, List.count_eq_zero.mpr hnotin]
    · have hne : k ≠ b := fun he => (List.nodup_cons.mp hnd).1 (he ▸ h2)
      simp [List.count_cons, ih (List.nodup_cons.mp hnd).2 h2, hne, Ne.symm hne]

theorem count_keys_insertPw (k v : List Nat) (l : List (List Nat × List Nat))
    (h : (l.map Prod.fst).Nodup) :
    List.count k ((insertPw k v l).map Prod.fst) = 1 := by
  by_cases hm : k ∈ l.map Prod.fst
  · rw [keys_insertPw_mem k v l hm]
    exact count_eq_one_nodup k _ h hm
  · rw [keys_insertPw_not_mem k v l hm]
    rw [List.count_append]
    have h0 : List.count k (l.map Prod.fst) = 0 := by
      rw [List.count_eq_zero]
      exact hm
    rw [h0]
    simp [List.count_cons]

theorem mem_keys_insertPw (k v : List Nat) (l : List (List Nat × List Nat)) :
    k ∈ (insertPw k v l).map Prod.fst := by
  induction l with
  | nil => simp [insertPw]
  | cons p t ih =>
    obtain ⟨k1, v1⟩ := p
    by_cases hk : k1 = k
    · rw [insertPw, if_pos hk]; simp
    · rw [insertPw, if_neg hk]
      simp only [List.map_cons, List.mem_cons]
      exact Or.inr ih

theorem gcmOpen_gcmSeal_wrong_key (k k1 nonce d : List Nat)
    (h : gcmTag k1 nonce (gcmCiphertext k nonce d)
       ≠ gcmTag k nonce (gcmCiphertext k nonce d)) :
    gcmOpen k1 nonce (gcmSeal k nonce d) = none := by
  have hct := gcmCiphertext_length k nonce d
  have hlen := gcmSeal_length k nonce d
  unfold gcmOpen
  rw [hlen]
  simp only [Nat.add_sub_cancel, if_neg (by omega : ¬ d.length + 16 < 16)]
  unfold gcmSeal
  rw [← hct, List.take_left, List.drop_left, hct]
  rw [if_neg h]

/-- C1 (code bug): the claimed persistence round-trip is false of the
program, for every mapping and every derived key.  Because
`encrypt_data` seals `data ‖ 0^16` (the buffer the code extends before
`seal_in_place_append_tag`), decryption returns the JSON bytes with 16
trailing zero bytes, and those fail to decode — so
`decode(decrypt(encrypt(encode(m), k), k))` is a decode failure, never
`m`, the empty mapping included. -/
theorem C1_roundtrip_code_bug (p : List Nat) (m : PasswordStore) :
    encrypt_data (generate_key_from_password p) (encodeStore m)
      = .ok (gcmSeal (generate_key_from_password p) (List.replicate 12 0)
          (encodeStore m ++ List.replicate 16 0)) ∧
    decrypt_data (generate_key_from_password p)
        (gcmSeal (generate_key_from_password p) (List.replicate 12 0)
          (encodeStore m ++ List.replicate 16 0))
      = .ok (some (encodeStore m ++ List.replicate 16 0)) ∧
    decodeStore (encodeStore m ++ List.replicate 16 0) = none :=
  ⟨encrypt_data_eq _ _ (generate_key_length p),
    by rw [decrypt_data_eq _ _ (generate_key_length p), gcmOpen_gcmSeal],
    decodeStore_padded m⟩

/-- C2: Wrong-key rejection — for any two 32-byte keys (smaller keys
make `UnboundKey::new(..).unwrap()` panic), whenever the tag
recomputed under `k2` differs from the tag sealed under `k1` (which is
what "for virtually all `k1 ≠ k2`" means for an AEAD), opening a blob
sealed under `k1` with `k2` yields `None`; it never silently returns a
wrong or garbage plaintext. -/
theorem C2_wrong_key_rejection (k1 k2 d : List Nat)
    (h1 : k1.length = 32) (h2 : k2.length = 32)
    (h : gcmTag k2 (List.replicate 12 0)
            (gcmCiphertext k1 (List.replicate 12 0) (d ++ List.replicate 16 0))
       ≠ gcmTag k1 (List.replicate 12 0)
            (gcmCiphertext k1 (List.replicate 12 0) (d ++ List.replicate 16 0))) :
    encrypt_data k1 d
      = .ok (gcmSeal k1 (List.replicate 12 0) (d ++ List.replicate 16 0)) ∧
    decrypt_data k2 (gcmSeal k1 (List.replicate 12 0) (d ++ List.replicate 16 0))
      = .ok none := by
  refine ⟨encrypt_data_eq k1 d h1, ?_⟩
  rw [decrypt_data_eq _ _ h2, gcmOpen_gcmSeal_wrong_key _ _ _ _ h]

set_option maxRecDepth 100000 in
/-- C2 witness: the two 32-byte keys derived from passphrases `a` and
`b`, whose tags over the sealed empty payload differ. -/
theorem C2_wrong_key_rejection_witness :
    (generate_key_from_password [97]).length = 32 ∧
    (generate_key_from_password [98]).length = 32 ∧
    (gcmTag (generate_key_from_password [98]) (List.replicate 12 0)
        (gcmCiphertext (generate_key_from_password [97]) (List.replicate 12 0)
          ([] ++ List.replicate 16 0))
      ≠ gcmTag (generate_key_from_password [97]) (List.replicate 12 0)
        (gcmCiphertext (generate_key_from_password [97]) (List.replicate 12 0)
          ([] ++ List.replicate 16 0))) ∧
    decrypt_data (generate_key_from_password [98])
        (gcmSeal (generate_key_from_password [97]) (List.replicate 12 0)
          ([] ++ List.replicate 16 0))
      = .ok none :=
  ⟨by decide, by decide, by decide,
    (C2_wrong_key_rejection (generate_key_from_password [97])
      (generate_key_from_password [98]) [] (by decide) (by decide) (by decide)).2⟩

/-- C3: Fatal authentication failure — when the store file exists and
its bytes fail to decrypt under the derived key, `load_passwords`
reports the failure and exits with code 1; it never returns a mapping. -/
theorem C3_auth_failure_fatal (data p : List Nat)
    (h : decrypt_data (generate_key_from_password p) data = .ok none) :
    load_passwords (.opened (.bytes data)) p = .fatal wrongPasswordMsg 1 ∧
      ∀ st : PasswordStore, load_passwords (.opened (.bytes data)) p ≠ .loaded st := by
  have hf : load_passwords (.opened (.bytes data)) p = .fatal wrongPasswordMsg 1 := by
    unfold load_passwords
    dsimp only []
    rw [h]
  exact ⟨hf, fun st hc => by rw [hf] at hc; exact LoadResult.noConfusion hc⟩

/-- C3 witness: an existing file whose contents (empty byte string,
shorter than the tag) cannot decrypt. -/
theorem C3_auth_failure_fatal_witness :
    decrypt_data (generate_key_from_password [97]) [] = .ok none ∧
      load_passwords (.opened (.bytes [])) [97] = .fatal wrongPasswordMsg 1 :=
  ⟨by decide, (C3_auth_failure_fatal [] [97] (by decide)).1⟩

/-- C4: Constant-nonce invariant — every seal and every open operation
the program performs (its keys are always the derived 32-byte keys)
uses the fixed all-zero 12-byte (96-bit) nonce, and no nonce is stored
in the persisted blob: the blob is exactly the ciphertext of the
sealed plaintext (`data ‖ 0^16`, due to the buffer extension the code
performs) followed by the 16-byte tag, 32 bytes longer than `data`. -/
theorem C4_constant_zero_nonce (p d c : List Nat) :
    encrypt_data (generate_key_from_password p) d
      = .ok (gcmSeal (generate_key_from_password p) (List.replicate 12 0)
          (d ++ List.replicate 16 0)) ∧
    decrypt_data (generate_key_from_password p) c
      = .ok (gcmOpen (generate_key_from_password p) (List.replicate 12 0) c) ∧
    List.replicate 12 0 = [0, 0, 0, 0, 0, 0, 0, 0, 0, 0, 0, 0] ∧
    gcmSeal (generate_key_from_password p) (List.replicate 12 0) (d ++ List.replicate 16 0)
      = gcmCiphertext (generate_key_from_password p) (List.replicate 12 0)
          (d ++ List.replicate 16 0)
        ++ gcmTag (generate_key_from_password p) (List.replicate 12 0)
            (gcmCiphertext (generate_key_from_password p) (List.replicate 12 0)
              (d ++ List.replicate 16 0)) ∧
    (gcmSeal (generate_key_from_password p) (List.replicate 12 0)
        (d ++ List.replicate 16 0)).length = d.length + 32 := by
  refine ⟨encrypt_data_eq _ _ (generate_key_length p),
    decrypt_data_eq _ _ (generate_key_length p), by decide, rfl, ?_⟩
  rw [gcmSeal_length, List.length_append, List.length_replicate]

/-- C5 counterexample: a store file that exists but cannot be opened
(permission denied) is NOT propagated as a hard failure — the code's
`if let Ok(file) = File::open(..)` treats every open error like a
missing file and returns the empty mapping. -/
theorem C5_counterexample :
    load_passwords (.openFailed .permissionDenied) [97] = .loaded (PasswordStore.mk []) := rfl

/-- C5 amended: only a read failure after a successful open propagates
a hard failure (a panic); any failure of `File::open` itself — absent
file or unreadable file alike — yields the empty mapping. -/
theorem C5_amended (e : FileOpenErr) (p : List Nat) :
    load_passwords (.openFailed e) p = .loaded (PasswordStore.mk []) ∧
      load_passwords (.opened .readErr) p = .panicked :=
  ⟨rfl, rfl⟩

/-- C6: Lenient decode fallback — when decryption succeeds but the
plaintext fails to decode as a credential mapping, `load_passwords`
returns the empty mapping instead of propagating the error or
terminating. -/
theorem C6_decode_fallback (data p pt : List Nat)
    (h1 : decrypt_data (generate_key_from_password p) data = .ok (some pt))
    (h2 : decodeStore pt = none) :
    load_passwords (.opened (.bytes data)) p = .loaded (PasswordStore.mk []) := by
  unfold load_passwords
  dsimp only []
  rw [h1]
  simp [h2]

set_option maxRecDepth 100000 in
/-- C6 witness: the blob `encrypt_data` actually produces for the
single byte `x`; its decrypted plaintext `x ‖ 0^16` is not a JSON
store document. -/
theorem C6_decode_fallback_witness :
    encrypt_data (generate_key_from_password [97]) [120]
      = .ok (gcmSeal (generate_key_from_password [97]) (List.replicate 12 0)
          ([120] ++ List.replicate 16 0)) ∧
    decrypt_data (generate_key_from_password [97])
        (gcmSeal (generate_key_from_password [97]) (List.replicate 12 0)
          ([120] ++ List.replicate 16 0))
      = .ok (some ([120] ++ List.replicate 16 0)) ∧
    decodeStore ([120] ++ List.replicate 16 0) = none ∧
    load_passwords
        (.opened (.bytes (gcmSeal (generate_key_from_password [97]) (List.replicate 12 0)
          ([120] ++ List.replicate 16 0)))) [97]
      = .loaded (PasswordStore.mk []) :=
  ⟨by decide, by decide, by decide,
    C6_decode_fallback _ [97] ([120] ++ List.replicate 16 0) (by decide) (by decide)⟩

/-- C7 (code bug): the bootstrap claim is half true and half false of
the program.  Loading when no store file exists does return the empty
mapping; but after a first upsert of one entry, loading the blob that
`save_passwords` actually wrote under the same passphrase returns the
EMPTY mapping, not that entry: the blob decrypts to the JSON bytes
plus 16 trailing zero bytes, which fail to decode, and the fallback
discards the stored credential. -/
theorem C7_bootstrap_code_bug (p k v : List Nat) :
    load_passwords (.openFailed .notFound) p = .loaded (PasswordStore.mk []) ∧
    save_passwords (PasswordStore.mk (insertPw k v [])) p
      = .ok (gcmSeal (generate_key_from_password p) (List.replicate 12 0)
          (encodeStore (PasswordStore.mk (insertPw k v [])) ++ List.replicate 16 0)) ∧
    load_passwords
        (.opened (.bytes (gcmSeal (generate_key_from_password p) (List.replicate 12 0)
          (encodeStore (PasswordStore.mk (insertPw k v [])) ++ List.replicate 16 0)))) p
      = .loaded (PasswordStore.mk []) ∧
    PasswordStore.mk (insertPw k v []) ≠ PasswordStore.mk [] := by
  refine ⟨rfl, ?_, load_padded_blob _ p, by simp [insertPw]⟩
  unfold save_passwords
  exact encrypt_data_eq _ _ (generate_key_length p)

set_option maxRecDepth 100000 in
/-- C8 counterexample: at the empty mapping and passphrase `a`, the
blob the code produces is 32 bytes longer than the JSON plaintext, not
16 as claimed — the ciphertext covers the JSON bytes plus the 16 zero
bytes the code appends to the buffer before sealing. -/
theorem C8_counterexample :
    encrypt_data (generate_key_from_password [97]) (encodeStore (PasswordStore.mk []))
      = .ok (gcmSeal (generate_key_from_password [97]) (List.replicate 12 0)
          (encodeStore (PasswordStore.mk []) ++ List.replicate 16 0)) ∧
    (gcmSeal (generate_key_from_password [97]) (List.replicate 12 0)
        (encodeStore (PasswordStore.mk []) ++ List.replicate 16 0)).length
      ≠ (encodeStore (PasswordStore.mk [])).length + 16 ∧
    (gcmSeal (generate_key_from_password [97]) (List.replicate 12 0)
        (encodeStore (PasswordStore.mk []) ++ List.replicate 16 0)).length
      = (encodeStore (PasswordStore.mk [])).length + 32 :=
  ⟨encrypt_data_eq _ _ (generate_key_length [97]), by decide, by decide⟩

/-- C8 amended: bytes `0..n-17` of the persisted blob are the AEAD
ciphertext of the JSON encoding of the mapping FOLLOWED BY the 16 zero
bytes the code appends to the plaintext buffer before sealing; bytes
`n-16..n-1` are the 16-byte authentication tag; hence the sealed
output is exactly 32 bytes (not 16) longer than the JSON plaintext. -/
theorem C8_blob_format_amended (st : PasswordStore) (p : List Nat) :
    save_passwords st p
      = .ok (gcmSeal (generate_key_from_password p) (List.replicate 12 0)
          (encodeStore st ++ List.replicate 16 0)) ∧
    (gcmSeal (generate_key_from_password p) (List.replicate 12 0)
        (encodeStore st ++ List.replicate 16 0)).take
        ((gcmSeal (generate_key_from_password p) (List.replicate 12 0)
          (encodeStore st ++ List.replicate 16 0)).length - 16)
      = gcmCiphertext (generate_key_from_password p) (List.replicate 12 0)
          (encodeStore st ++ List.replicate 16 0) ∧
    (gcmSeal (generate_key_from_password p) (List.replicate 12 0)
        (encodeStore st ++ List.replicate 16 0)).drop
        ((gcmSeal (generate_key_from_password p) (List.replicate 12 0)
          (encodeStore st ++ List.replicate 16 0)).length - 16)
      = gcmTag (generate_key_from_password p) (List.replicate 12 0)
          (gcmCiphertext (generate_key_from_password p) (List.replicate 12 0)
            (encodeStore st ++ List.replicate 16 0)) ∧
    (gcmTag (generate_key_from_password p) (List.replicate 12 0)
        (gcmCiphertext (generate_key_from_password p) (List.replicate 12 0)
          (encodeStore st ++ List.replicate 16 0))).length = 16 ∧
    (gcmSeal (generate_key_from_password p) (List.replicate 12 0)
        (encodeStore st ++ List.replicate 16 0)).length
      = (encodeStore st).length + 32 := by
  have hct := gcmCiphertext_length (generate_key_from_password p)
    (List.replicate 12 0) (encodeStore st ++ List.replicate 16 0)
  have hlen := gcmSeal_length (generate_key_from_password p)
    (List.replicate 12 0) (encodeStore st ++ List.replicate 16 0)
  refine ⟨?_, ?_, ?_, gcmTag_length _ _ _, ?_⟩
  · unfold save_passwords
    exact encrypt_data_eq _ _ (generate_key_length p)
  · rw [hlen]
    simp only [Nat.add_sub_cancel]
    unfold gcmSeal
    rw [← hct, List.take_left]
  · rw [hlen]
    simp only [Nat.add_sub_cancel]
    unfold gcmSeal
    rw [← hct, List.drop_left]
  · rw [hlen, List.length_append, List.length_replicate]

/-- C9: Idempotent overwrite — upserting `svc ↦ a` then `svc ↦ b` into
any mapping with unique account names makes lookup of `svc` return
`b`, keeps `svc` listed exactly once, and preserves uniqueness. -/
theorem C9_idempotent_overwrite (st : PasswordStore) (svc a b : List Nat)
    (h : (st.passwords.map Prod.fst).Nodup) :
    lookupPw svc (insertPw svc b (insertPw svc a st.passwords)) = some b ∧
    List.count svc ((insertPw svc b (insertPw svc a st.passwords)).map Prod.fst) = 1 ∧
    ((insertPw svc b (insertPw svc a st.passwords)).map Prod.fst).Nodup := by
  refine ⟨lookupPw_insertPw svc b _, ?_, ?_⟩
  · exact count_keys_insertPw svc b _ (nodup_keys_insertPw svc a _ h)
  · exact nodup_keys_insertPw svc b _ (nodup_keys_insertPw svc a _ h)

/-- C9 witness: overwrite on the empty store at concrete names. -/
theorem C9_idempotent_overwrite_witness :
    ((PasswordStore.mk []).passwords.map Prod.fst).Nodup ∧
      lookupPw [115] (insertPw [115] [98] (insertPw [115] [97]
        (PasswordStore.mk []).passwords)) = some [98] :=
  ⟨by decide,
    (C9_idempotent_overwrite (PasswordStore.mk []) [115] [97] [98] (by decide)).1⟩

set_option maxRecDepth 100000 in
/-- C10 counterexample: the same logical mapping (the same set of
account/secret pairs, here a permutation) serialized from two hash-map
iteration orders — as happens across two runs of the program — yields
different persisted blobs under the same passphrase, so save is NOT a
deterministic function of the logical mapping. -/
theorem C10_counterexample :
    (PasswordStore.mk [([97], [49]), ([98], [50])]).passwords.Perm
        (PasswordStore.mk [([98], [50]), ([97], [49])]).passwords ∧
      save_passwords (PasswordStore.mk [([97], [49]), ([98], [50])]) [112]
        ≠ save_passwords (PasswordStore.mk [([98], [50]), ([97], [49])]) [112] :=
  ⟨List.Perm.swap _ _ _, by decide⟩

/-- C10 amended: sealing is deterministic in the serialized bytes —
two saves under the same passphrase produce byte-for-byte identical
blobs exactly when the serializer emitted identical bytes (which
depends on the hash map's iteration order, not only on the logical
mapping). -/
theorem C10_amended (st1 st2 : PasswordStore) (p : List Nat) :
    save_passwords st1 p = save_passwords st2 p ↔ encodeStore st1 = encodeStore st2 := by
  constructor
  · intro h
    unfold save_passwords at h
    rw [encrypt_data_eq _ _ (generate_key_length p),
      encrypt_data_eq _ _ (generate_key_length p)] at h
    injection h with hblob
    have o1 := gcmOpen_gcmSeal (generate_key_from_password p) (List.replicate 12 0)
      (encodeStore st1 ++ List.replicate 16 0)
    rw [hblob, gcmOpen_gcmSeal] at o1
    injection o1 with hpt
    exact (List.append_cancel_right hpt).symm
  · intro h
    unfold save_passwords
    rw [h]
